import Mathlib

/-!
# PPM reconstruction kernel (Colella–Sekora limiters), verified embedding

Shallow embedding over exact rationals of `src/recon/ppm_simple2.hpp`:
the point kernel `PPM` (stages 1–5) and the three directional sweep
drivers `PiecewiseParabolicX1/X2/X3`.  Machine `Real` is modelled as `ℚ`
(exact arithmetic); the floating-point literal `1.0e-12` is the rational
`1/10^12`.
-/

namespace PPMRecon

/-- Modelled from the spec: the `SIGN` function used by the kernel is not
defined under `src/` (it comes from the surrounding framework); the spec
prescribes a strict sign function where 0 is its own sign bucket, so the
"all same sign" tests fail across a literal zero unless all operands are
zero. -/
def SIGN (x : ℚ) : ℚ := if x < 0 then -1 else if x = 0 then 0 else 1

/-- CS08 constant used in the second-derivative limiter (`C2 = 1.25`). -/
def C2 : ℚ := 5 / 4

/-- The roundoff-relative threshold `1.0e-12`. -/
def eps : ℚ := 1 / 10 ^ 12

/-- The repeated limiter primitive of Step 2a: if `qa`, `qb`, `qc` share one
strict sign, `SIGN(qa) * min(C2*|qb|, min(C2*|qc|, |qa|))`, else `0`. -/
def lim3 (qa qb qc : ℚ) : ℚ :=
  if SIGN qa = SIGN qb ∧ SIGN qa = SIGN qc then
    SIGN qa * min (C2 * |qb|) (min (C2 * |qc|) |qa|)
  else 0

/-- The Step-4 limiter primitive (CS eq 22): if `qa`, `qb`, `qc`, `qd` share
one strict sign, `SIGN(qd) * min(min(C2*|qa|, C2*|qb|), min(C2*|qc|, |qd|))`,
else `0`. -/
def lim4 (qa qb qc qd : ℚ) : ℚ :=
  if SIGN qa = SIGN qb ∧ SIGN qa = SIGN qc ∧ SIGN qa = SIGN qd then
    SIGN qd * min (min (C2 * |qa|) (C2 * |qb|)) (min (C2 * |qc|) |qd|)
  else 0

/-- Step 1 helper `dd_im1 = c1i*(q_i - q_im1) + c2i*(q_im1 - q_im2)`. -/
def dd_im1 (q_im2 q_im1 q_i : ℚ) : ℚ :=
  (1 / 2) * (q_i - q_im1) + (1 / 2) * (q_im1 - q_im2)

/-- Step 1 helper `dd = c1i*(q_ip1 - q_i) + c2i*(q_i - q_im1)`. -/
def dd (q_im1 q_i q_ip1 : ℚ) : ℚ :=
  (1 / 2) * (q_ip1 - q_i) + (1 / 2) * (q_i - q_im1)

/-- Step 1 helper `dd_ip1 = c1i*(q_ip2 - q_ip1) + c2i*(q_ip1 - q_i)`. -/
def dd_ip1 (q_i q_ip1 q_ip2 : ℚ) : ℚ :=
  (1 / 2) * (q_ip2 - q_ip1) + (1 / 2) * (q_ip1 - q_i)

/-- Step 1: unlimited interface average at `i-1/2` (CW eq 1.6), grouping the
biased stencil quantities exactly as the source does. -/
def dphRaw (q_im2 q_im1 q_i q_ip1 : ℚ) : ℚ :=
  ((1 / 2) * q_im1 + (1 / 2) * q_i) +
    ((1 / 6) * dd_im1 q_im2 q_im1 q_i + (-1 / 6) * dd q_im1 q_i q_ip1)

/-- Step 1: unlimited interface average at `i+1/2` (CW eq 1.6). -/
def dphip1Raw (q_im1 q_i q_ip1 q_ip2 : ℚ) : ℚ :=
  ((1 / 2) * q_i + (1 / 2) * q_ip1) +
    ((1 / 6) * dd q_im1 q_i q_ip1 + (-1 / 6) * dd_ip1 q_i q_ip1 q_ip2)

/-- Step 2a second difference `d2qc_im1 = q_im2 + q_i - 2*q_im1`. -/
def d2qc_im1 (q_im2 q_im1 q_i : ℚ) : ℚ := q_im2 + q_i - 2 * q_im1

/-- Step 2a second difference `d2qc = q_im1 + q_ip1 - 2*q_i` (CD eq 85a). -/
def d2qc (q_im1 q_i q_ip1 : ℚ) : ℚ := q_im1 + q_ip1 - 2 * q_i

/-- Step 2a second difference `d2qc_ip1 = q_i + q_ip2 - 2*q_ip1`. -/
def d2qc_ip1 (q_i q_ip1 q_ip2 : ℚ) : ℚ := q_i + q_ip2 - 2 * q_ip1

/-- Step 2a face-value extremum correction at a face bounded by cell averages
`u` (below) and `v` (above), with unlimited face value `p` and the two
second differences `A` (off-centered toward `u`) and `B` (toward `v`)
feeding the face.  The face value is replaced by the curvature-limited
`0.5*(u+v) - qd/6` exactly when `(p - u)*(v - p) < 0` (CD eqs 84–85). -/
def faceCorrect (u v p A B : ℚ) : ℚ :=
  if (p - u) * (v - p) < 0 then
    (1 / 2) * (u + v) - lim3 (3 * (u + v - 2 * p)) A B / 6
  else p

/-- The corrected interface value `dph` at `i-1/2` after Step 2a. -/
def dphCor (q_im2 q_im1 q_i q_ip1 : ℚ) : ℚ :=
  faceCorrect q_im1 q_i (dphRaw q_im2 q_im1 q_i q_ip1)
    (d2qc_im1 q_im2 q_im1 q_i) (d2qc q_im1 q_i q_ip1)

/-- The corrected interface value `dph_ip1` at `i+1/2` after Step 2a. -/
def dphip1Cor (q_im1 q_i q_ip1 q_ip2 : ℚ) : ℚ :=
  faceCorrect q_i q_ip1 (dphip1Raw q_im1 q_i q_ip1 q_ip2)
    (d2qc q_im1 q_i q_ip1) (d2qc_ip1 q_i q_ip1 q_ip2)

/-- Combined curvature `d2qf = 6*(dph + dph_ip1 - 2*q_i)` (a6 coefficient
times `-2`). -/
def d2qf (q_im2 q_im1 q_i q_ip1 q_ip2 : ℚ) : ℚ :=
  6 * (dphCor q_im2 q_im1 q_i q_ip1 + dphip1Cor q_im1 q_i q_ip1 q_ip2 - 2 * q_i)

/-- Step 3: `dqf_minus = q_i - qminus` (CS eq 25). -/
def dqf_minus (q_im2 q_im1 q_i q_ip1 : ℚ) : ℚ :=
  q_i - dphCor q_im2 q_im1 q_i q_ip1

/-- Step 3: `dqf_plus = qplus - q_i`. -/
def dqf_plus (q_im1 q_i q_ip1 q_ip2 : ℚ) : ℚ :=
  dphip1Cor q_im1 q_i q_ip1 q_ip2 - q_i

/-- Step 4 limited combined curvature `qe` (CS eq 22). -/
def qe4 (q_im2 q_im1 q_i q_ip1 q_ip2 : ℚ) : ℚ :=
  lim4 (d2qc_im1 q_im2 q_im1 q_i) (d2qc q_im1 q_i q_ip1)
    (d2qc_ip1 q_i q_ip1 q_ip2) (d2qf q_im2 q_im1 q_i q_ip1 q_ip2)

/-- The stencil value scale `max(max(|q_im1|,|q_im2|),
max(max(|q_i|,|q_ip1|),|q_ip2|))` used by the roundoff guard. -/
def scale5 (q_im2 q_im1 q_i q_ip1 q_ip2 : ℚ) : ℚ :=
  max (max |q_im1| |q_im2|) (max (max |q_i| |q_ip1|) |q_ip2|)

/-- The limiting ratio `rho`: `qe/d2qf` when `|d2qf|` exceeds the
roundoff threshold `1e-12 * scale`, else `0` (MC eq 27). -/
def rho (q_im2 q_im1 q_i q_ip1 q_ip2 : ℚ) : ℚ :=
  if |d2qf q_im2 q_im1 q_i q_ip1 q_ip2| >
      eps * scale5 q_im2 q_im1 q_i q_ip1 q_ip2 then
    qe4 q_im2 q_im1 q_i q_ip1 q_ip2 / d2qf q_im2 q_im1 q_i q_ip1 q_ip2
  else 0

/-- The Point Kernel `PPM`: maps the 5-point stencil to the pair
`(ql_ip1, qr_i)` = (left state at the upper face, right state at the lower
face), i.e. `(qplus, qminus)` after the Step-4 limiters. -/
def PPM (q_im2 q_im1 q_i q_ip1 q_ip2 : ℚ) : ℚ × ℚ :=
  if dqf_minus q_im2 q_im1 q_i q_ip1 * dqf_plus q_im1 q_i q_ip1 q_ip2 ≤ 0 ∨
      (q_ip1 - q_i) * (q_i - q_im1) ≤ 0 then
    if rho q_im2 q_im1 q_i q_ip1 q_ip2 ≤ 1 - eps then
      (q_i + rho q_im2 q_im1 q_i q_ip1 q_ip2 * dqf_plus q_im1 q_i q_ip1 q_ip2,
       q_i - rho q_im2 q_im1 q_i q_ip1 q_ip2 * dqf_minus q_im2 q_im1 q_i q_ip1)
    else
      (dphip1Cor q_im1 q_i q_ip1 q_ip2, dphCor q_im2 q_im1 q_i q_ip1)
  else
    (if |dqf_plus q_im1 q_i q_ip1 q_ip2| ≥ 2 * |dqf_minus q_im2 q_im1 q_i q_ip1| then
       q_i + 2 * dqf_minus q_im2 q_im1 q_i q_ip1
     else dphip1Cor q_im1 q_i q_ip1 q_ip2,
     if |dqf_minus q_im2 q_im1 q_i q_ip1| ≥ 2 * |dqf_plus q_im1 q_i q_ip1 q_ip2| then
       q_i - 2 * dqf_plus q_im1 q_i q_ip1 q_ip2
     else dphCor q_im2 q_im1 q_i q_ip1)

/-- The Step-2a face correction at `i-1/2` triggers: a local extremum is
detected at the face, `(dph - q_im1)*(q_i - dph) < 0` (CD eq 84). -/
def faceLoTrig (q_im2 q_im1 q_i q_ip1 : ℚ) : Prop :=
  (dphRaw q_im2 q_im1 q_i q_ip1 - q_im1) * (q_i - dphRaw q_im2 q_im1 q_i q_ip1) < 0

/-- The Step-2a face correction at `i+1/2` triggers. -/
def faceHiTrig (q_im1 q_i q_ip1 q_ip2 : ℚ) : Prop :=
  (dphip1Raw q_im1 q_i q_ip1 q_ip2 - q_i) *
    (q_ip1 - dphip1Raw q_im1 q_i q_ip1 q_ip2) < 0

/-- The Step-4 smooth-extremum rescale triggers: an extremum is detected by
the product tests and the ratio is not within roundoff of `1`. -/
def rescaleTrig (q_im2 q_im1 q_i q_ip1 q_ip2 : ℚ) : Prop :=
  (dqf_minus q_im2 q_im1 q_i q_ip1 * dqf_plus q_im1 q_i q_ip1 q_ip2 ≤ 0 ∨
    (q_ip1 - q_i) * (q_i - q_im1) ≤ 0) ∧
  rho q_im2 q_im1 q_i q_ip1 q_ip2 ≤ 1 - eps

instance (a b c d : ℚ) : Decidable (faceLoTrig a b c d) := by
  unfold faceLoTrig; infer_instance

instance (b c d e : ℚ) : Decidable (faceHiTrig b c d e) := by
  unfold faceHiTrig; infer_instance

instance (a b c d e : ℚ) : Decidable (rescaleTrig a b c d e) := by
  unfold rescaleTrig; infer_instance

/-! ## Directional sweep drivers

The field array `q(n,k,j,i)` is modelled as a total function
`ℕ → ℤ → ℤ → ℤ → ℚ`, the scratch output buffers `ql`, `qr` as functions
`ℕ → ℤ → ℚ`.  `par_for_inner(member, il, iu, ...)` iterates the body over
the inclusive range `[il, iu]`; every write target is distinct, so the
sequential left fold is a faithful model of the parallel loop. -/

/-- The inclusive index range `[lo, hi]` as a list. -/
def idxList (lo hi : ℤ) : List ℤ :=
  (List.range (hi + 1 - lo).toNat).map (fun (t : ℕ) => lo + (t : ℤ))

/-- Point update of a 2-index buffer. -/
def upd (f : ℕ → ℤ → ℚ) (n : ℕ) (i : ℤ) (v : ℚ) : ℕ → ℤ → ℚ :=
  fun m t => if m = n ∧ t = i then v else f m t

/-- The `PPM` call made by `PiecewiseParabolicX1` at `(n,k,j,i)`: the five
cell averages at offsets `-2..+2` along the `i` axis. -/
def stencilX1 (q : ℕ → ℤ → ℤ → ℤ → ℚ) (n : ℕ) (k j i : ℤ) : ℚ × ℚ :=
  PPM (q n k j (i - 2)) (q n k j (i - 1)) (q n k j i) (q n k j (i + 1)) (q n k j (i + 2))

/-- The `PPM` call made by `PiecewiseParabolicX2` at `(n,k,j,i)`: offsets
along the `j` axis. -/
def stencilX2 (q : ℕ → ℤ → ℤ → ℤ → ℚ) (n : ℕ) (k j i : ℤ) : ℚ × ℚ :=
  PPM (q n k (j - 2) i) (q n k (j - 1) i) (q n k j i) (q n k (j + 1) i) (q n k (j + 2) i)

/-- The `PPM` call made by `PiecewiseParabolicX3` at `(n,k,j,i)`: offsets
along the `k` axis. -/
def stencilX3 (q : ℕ → ℤ → ℤ → ℤ → ℚ) (n : ℕ) (k j i : ℤ) : ℚ × ℚ :=
  PPM (q n (k - 2) j i) (q n (k - 1) j i) (q n k j i) (q n (k + 1) j i) (q n (k + 2) j i)

/-- Wrapper for PPM reconstruction in the x1-direction: for each variable
`n < nvar` and each `i ∈ [il, iu]`, writes the left state into `ql(n, i+1)`
and the right state into `qr(n, i)`. -/
def PiecewiseParabolicX1 (nvar : ℕ) (k j il iu : ℤ)
    (q : ℕ → ℤ → ℤ → ℤ → ℚ) (ql qr : ℕ → ℤ → ℚ) : (ℕ → ℤ → ℚ) × (ℕ → ℤ → ℚ) :=
  (List.range nvar).foldl (fun bufs n =>
    (idxList il iu).foldl (fun bufs2 i =>
      (upd bufs2.1 n (i + 1) (stencilX1 q n k j i).1,
       upd bufs2.2 n i (stencilX1 q n k j i).2)) bufs) (ql, qr)

/-- Wrapper for PPM reconstruction in the x2-direction: for each variable
`n < nvar` and each `i ∈ [il, iu]`, writes the left state into
`ql_jp1(n, i)` and the right state into `qr_j(n, i)`. -/
def PiecewiseParabolicX2 (nvar : ℕ) (k j il iu : ℤ)
    (q : ℕ → ℤ → ℤ → ℤ → ℚ) (ql_jp1 qr_j : ℕ → ℤ → ℚ) : (ℕ → ℤ → ℚ) × (ℕ → ℤ → ℚ) :=
  (List.range nvar).foldl (fun bufs n =>
    (idxList il iu).foldl (fun bufs2 i =>
      (upd bufs2.1 n i (stencilX2 q n k j i).1,
       upd bufs2.2 n i (stencilX2 q n k j i).2)) bufs) (ql_jp1, qr_j)

/-- Wrapper for PPM reconstruction in the x3-direction: for each variable
`n < nvar` and each `i ∈ [il, iu]`, writes the left state into
`ql_kp1(n, i)` and the right state into `qr_k(n, i)`. -/
def PiecewiseParabolicX3 (nvar : ℕ) (k j il iu : ℤ)
    (q : ℕ → ℤ → ℤ → ℤ → ℚ) (ql_kp1 qr_k : ℕ → ℤ → ℚ) : (ℕ → ℤ → ℚ) × (ℕ → ℤ → ℚ) :=
  (List.range nvar).foldl (fun bufs n =>
    (idxList il iu).foldl (fun bufs2 i =>
      (upd bufs2.1 n i (stencilX3 q n k j i).1,
       upd bufs2.2 n i (stencilX3 q n k j i).2)) bufs) (ql_kp1, qr_k)

/-- The zero output buffer used in concrete instantiations. -/
def zbuf : ℕ → ℤ → ℚ := fun _ _ => 0

/-- A field varying only along the j axis, used in concrete instantiations. -/
def jfield : ℕ → ℤ → ℤ → ℤ → ℚ := fun _ _ j _ => (j : ℚ)

/-- The constant-zero field used in concrete instantiations. -/
def cfield : ℕ → ℤ → ℤ → ℤ → ℚ := fun _ _ _ _ => 0


lemma lim3_comm (qa A B : ℚ) : lim3 qa B A = lim3 qa A B := by
  unfold lim3
  rw [min_left_comm]
  exact if_congr and_comm rfl rfl

lemma min4_swap (x y z w : ℚ) : min (min z y) (min x w) = min (min x y) (min z w) := by
  rw [min_assoc, min_assoc, min_left_comm y x w, min_left_comm y z w]
  rw [min_left_comm z x (min y w)]

lemma lim4_symm (A B Cc D : ℚ) : lim4 Cc B A D = lim4 A B Cc D := by
  unfold lim4
  rw [min4_swap (C2 * |A|) (C2 * |B|) (C2 * |Cc|) |D|]
  refine if_congr ?_ rfl rfl
  constructor
  · rintro ⟨h1, h2, h3⟩
    exact ⟨h2.symm.trans h1, h2.symm, h2.symm.trans h3⟩
  · rintro ⟨h1, h2, h3⟩
    exact ⟨h2.symm.trans h1, h2.symm, h2.symm.trans h3⟩

lemma faceCorrect_swap (u v p A B : ℚ) : faceCorrect v u p B A = faceCorrect u v p A B := by
  unfold faceCorrect
  rw [show (p - v) * (u - p) = (p - u) * (v - p) by ring,
    show 3 * (v + u - 2 * p) = 3 * (u + v - 2 * p) by ring, lim3_comm,
    show (1 : ℚ) / 2 * (v + u) = 1 / 2 * (u + v) by ring]

lemma dphRaw_mirror (b c d e : ℚ) : dphRaw e d c b = dphip1Raw b c d e := by
  unfold dphRaw dphip1Raw dd_im1 dd dd_ip1; ring

lemma d2qc_im1_mirror (c d e : ℚ) : d2qc_im1 e d c = d2qc_ip1 c d e := by
  unfold d2qc_im1 d2qc_ip1; ring

lemma d2qc_mirror (b c d : ℚ) : d2qc d c b = d2qc b c d := by
  unfold d2qc; ring

lemma dphCor_mirror (b c d e : ℚ) : dphCor e d c b = dphip1Cor b c d e := by
  unfold dphCor dphip1Cor
  rw [dphRaw_mirror, d2qc_im1_mirror, d2qc_mirror, faceCorrect_swap]

lemma d2qf_mirror (a b c d e : ℚ) : d2qf e d c b a = d2qf a b c d e := by
  unfold d2qf
  rw [dphCor_mirror b c d e, dphCor_mirror d c b a]
  ring

lemma qe4_mirror (a b c d e : ℚ) : qe4 e d c b a = qe4 a b c d e := by
  unfold qe4
  rw [d2qc_im1_mirror c d e, d2qc_mirror, d2qf_mirror,
    show d2qc_ip1 c b a = d2qc_im1 a b c from (d2qc_im1_mirror c b a).symm]
  exact lim4_symm _ _ _ _

lemma scale5_mirror (a b c d e : ℚ) : scale5 e d c b a = scale5 a b c d e := by
  unfold scale5
  apply le_antisymm
  · exact max_le
      (max_le
        (le_trans (le_max_right |c| |d|) (le_trans (le_max_left _ |e|) (le_max_right _ _)))
        (le_trans (le_max_right (max |c| |d|) |e|) (le_max_right _ _)))
      (max_le
        (max_le
          (le_trans (le_max_left |c| |d|) (le_trans (le_max_left _ |e|) (le_max_right _ _)))
          (le_trans (le_max_left |b| |a|) (le_max_left _ _)))
        (le_trans (le_max_right |b| |a|) (le_max_left _ _)))
  · exact max_le
      (max_le
        (le_trans (le_max_right |c| |b|) (le_trans (le_max_left _ |a|) (le_max_right _ _)))
        (le_trans (le_max_right (max |c| |b|) |a|) (le_max_right _ _)))
      (max_le
        (max_le
          (le_trans (le_max_left |c| |b|) (le_trans (le_max_left _ |a|) (le_max_right _ _)))
          (le_trans (le_max_left |d| |e|) (le_max_left _ _)))
        (le_trans (le_max_right |d| |e|) (le_max_left _ _)))

lemma rho_mirror (a b c d e : ℚ) : rho e d c b a = rho a b c d e := by
  unfold rho
  rw [d2qf_mirror, qe4_mirror, scale5_mirror]

lemma dqf_minus_mirror (b c d e : ℚ) : dqf_minus e d c b = -dqf_plus b c d e := by
  unfold dqf_minus dqf_plus
  rw [dphCor_mirror]; ring

lemma dqf_plus_mirror (a b c d : ℚ) : dqf_plus d c b a = -dqf_minus a b c d := by
  unfold dqf_plus dqf_minus
  rw [dphCor_mirror d c b a]; ring

/-- C1: mirror symmetry of the Point Kernel. -/
theorem PPM_mirror (a b c d e : ℚ) :
    (PPM a b c d e).1 = (PPM e d c b a).2 ∧ (PPM a b c d e).2 = (PPM e d c b a).1 := by
  unfold PPM
  rw [dqf_minus_mirror b c d e, dqf_plus_mirror a b c d, rho_mirror a b c d e,
    ← dphCor_mirror d c b a, dphCor_mirror b c d e]
  rw [show -dqf_plus b c d e * -dqf_minus a b c d
        = dqf_minus a b c d * dqf_plus b c d e by ring,
    show (b - c) * (c - d) = (d - c) * (c - b) by ring,
    abs_neg, abs_neg]
  constructor <;> split_ifs <;> simp <;> ring

lemma dphRaw_const (c : ℚ) : dphRaw c c c c = c := by
  unfold dphRaw dd_im1 dd; ring

lemma dphip1Raw_const (c : ℚ) : dphip1Raw c c c c = c := by
  unfold dphip1Raw dd dd_ip1; ring

lemma dphCor_const (c : ℚ) : dphCor c c c c = c := by
  unfold dphCor faceCorrect
  rw [dphRaw_const]
  simp

lemma dphip1Cor_const (c : ℚ) : dphip1Cor c c c c = c := by
  unfold dphip1Cor faceCorrect
  rw [dphip1Raw_const]
  simp

lemma d2qf_const (c : ℚ) : d2qf c c c c c = 0 := by
  unfold d2qf
  rw [dphCor_const, dphip1Cor_const]; ring

lemma scale5_nonneg (a b c d e : ℚ) : 0 ≤ scale5 a b c d e := by
  unfold scale5; positivity

lemma rho_of_small (a b c d e : ℚ)
    (h : |d2qf a b c d e| ≤ eps * scale5 a b c d e) : rho a b c d e = 0 := by
  unfold rho
  exact if_neg (not_lt.mpr h)

lemma rho_const (c : ℚ) : rho c c c c c = 0 := by
  refine rho_of_small c c c c c ?_
  rw [d2qf_const, abs_zero]
  exact mul_nonneg (by norm_num [eps]) (scale5_nonneg _ _ _ _ _)

/-- C2: constant reproduction. -/
theorem PPM_const (c : ℚ) : PPM c c c c c = (c, c) := by
  have hm : dqf_minus c c c c = 0 := by unfold dqf_minus; rw [dphCor_const]; ring
  have hp : dqf_plus c c c c = 0 := by unfold dqf_plus; rw [dphip1Cor_const]; ring
  unfold PPM
  rw [hm, hp, rho_const]
  norm_num [eps]

lemma dphRaw_lin (al be : ℚ) :
    dphRaw (al - 2 * be) (al - be) al (al + be) = al - be / 2 := by
  unfold dphRaw dd_im1 dd; ring

lemma dphip1Raw_lin (al be : ℚ) :
    dphip1Raw (al - be) al (al + be) (al + 2 * be) = al + be / 2 := by
  unfold dphip1Raw dd dd_ip1; ring

lemma dphCor_lin (al be : ℚ) :
    dphCor (al - 2 * be) (al - be) al (al + be) = al - be / 2 := by
  unfold dphCor faceCorrect
  rw [dphRaw_lin,
    show (al - be / 2 - (al - be)) * (al - (al - be / 2)) = (be / 2) ^ 2 by ring]
  exact if_neg (not_lt.mpr (sq_nonneg _))

lemma dphip1Cor_lin (al be : ℚ) :
    dphip1Cor (al - be) al (al + be) (al + 2 * be) = al + be / 2 := by
  unfold dphip1Cor faceCorrect
  rw [dphip1Raw_lin,
    show (al + be / 2 - al) * (al + be - (al + be / 2)) = (be / 2) ^ 2 by ring]
  exact if_neg (not_lt.mpr (sq_nonneg _))

lemma d2qf_lin (al be : ℚ) :
    d2qf (al - 2 * be) (al - be) al (al + be) (al + 2 * be) = 0 := by
  unfold d2qf
  rw [dphCor_lin, dphip1Cor_lin]; ring

lemma rho_lin (al be : ℚ) :
    rho (al - 2 * be) (al - be) al (al + be) (al + 2 * be) = 0 := by
  refine rho_of_small _ _ _ _ _ ?_
  rw [d2qf_lin, abs_zero]
  exact mul_nonneg (by norm_num [eps]) (scale5_nonneg _ _ _ _ _)

/-- C7: linear reproduction. -/
theorem PPM_linear (al be : ℚ) :
    PPM (al - 2 * be) (al - be) al (al + be) (al + 2 * be) =
      (al + be / 2, al - be / 2) := by
  have hm : dqf_minus (al - 2 * be) (al - be) al (al + be) = be / 2 := by
    unfold dqf_minus; rw [dphCor_lin]; ring
  have hp : dqf_plus (al - be) al (al + be) (al + 2 * be) = be / 2 := by
    unfold dqf_plus; rw [dphip1Cor_lin]; ring
  unfold PPM
  rw [hm, hp, rho_lin, dphCor_lin, dphip1Cor_lin,
    show (al + be - al) * (al - (al - be)) = be * be by ring]
  rcases eq_or_ne be 0 with hbe | hbe
  · subst hbe; norm_num [eps]
  · have h1 : ¬(be / 2 * (be / 2) ≤ 0 ∨ be * be ≤ 0) := by
      push_neg
      constructor
      · have := mul_self_pos.mpr hbe
        nlinarith
      · exact mul_self_pos.mpr hbe
    have h2 : ¬(|be / 2| ≥ 2 * |be / 2|) := by
      have : 0 < |be / 2| := abs_pos.mpr (by simpa using hbe)
      linarith
    rw [if_neg h1, if_neg h2, if_neg h2]

/-- C8: end-to-end regression vector on the stencil (1,1,1,2,3). -/
theorem PPM_regression :
    (PPM 1 1 1 2 3).2 ≤ 1 ∧ (1 : ℚ) ≤ (PPM 1 1 1 2 3).1 := by
  have h : PPM 1 1 1 2 3 = (1, 1) := by
    norm_num [PPM, dqf_minus, dqf_plus, dphCor, dphip1Cor, faceCorrect, dphRaw,
      dphip1Raw, dd_im1, dd, dd_ip1, d2qc_im1, d2qc, d2qc_ip1, lim3, SIGN, C2,
      rho, d2qf, qe4, lim4, scale5, eps]
  rw [h]
  norm_num

/-- C6: roundoff guard. -/
theorem PPM_roundoff_guard (a b c d e : ℚ)
    (h : |d2qf a b c d e| ≤ eps * scale5 a b c d e) :
    rho a b c d e = 0 ∧
    |(PPM a b c d e).1 - c| ≤ 2 * max |dqf_minus a b c d| |dqf_plus b c d e| ∧
    |(PPM a b c d e).2 - c| ≤ 2 * max |dqf_minus a b c d| |dqf_plus b c d e| := by
  have h0 := rho_of_small a b c d e h
  have hC : dphCor a b c d = c - dqf_minus a b c d := by unfold dqf_minus; ring
  have hD : dphip1Cor b c d e = c + dqf_plus b c d e := by unfold dqf_plus; ring
  have hM := le_max_left |dqf_minus a b c d| |dqf_plus b c d e|
  have hP := le_max_right |dqf_minus a b c d| |dqf_plus b c d e|
  have hMn := abs_nonneg (dqf_minus a b c d)
  have hPn := abs_nonneg (dqf_plus b c d e)
  refine ⟨h0, ?_, ?_⟩ <;>
  · unfold PPM
    rw [h0, hC, hD]
    split_ifs <;> simp [abs_mul] <;> linarith

lemma lim4_div_bounds (A B Cc D : ℚ) (hD : D ≠ 0) :
    0 ≤ lim4 A B Cc D / D ∧ lim4 A B Cc D / D ≤ 1 := by
  unfold lim4
  split_ifs with hs
  · have hC2 : (0 : ℚ) ≤ C2 := by norm_num [C2]
    have hm0 : 0 ≤ min (min (C2 * |A|) (C2 * |B|)) (min (C2 * |Cc|) |D|) := by
      refine le_min (le_min ?_ ?_) (le_min ?_ ?_)
      · exact mul_nonneg hC2 (abs_nonneg _)
      · exact mul_nonneg hC2 (abs_nonneg _)
      · exact mul_nonneg hC2 (abs_nonneg _)
      · exact abs_nonneg _
    have hmD : min (min (C2 * |A|) (C2 * |B|)) (min (C2 * |Cc|) |D|) ≤ |D| :=
      le_trans (min_le_right _ _) (min_le_right _ _)
    rcases hD.lt_or_lt with hneg | hpos
    · have hsg : SIGN D = -1 := by unfold SIGN; rw [if_pos hneg]
      rw [hsg, neg_one_mul, neg_div, ← div_neg]
      have habs : |D| = -D := abs_of_neg hneg
      constructor
      · exact div_nonneg hm0 (by linarith)
      · exact (div_le_one (by linarith)).mpr (le_trans hmD (le_of_eq habs))
    · have hsg : SIGN D = 1 := by
        unfold SIGN; rw [if_neg (not_lt.mpr hpos.le), if_neg hD]
      rw [hsg, one_mul]
      have habs : |D| = D := abs_of_pos hpos
      exact ⟨div_nonneg hm0 hpos.le, (div_le_one hpos).mpr (le_trans hmD (le_of_eq habs))⟩
  · simp

/-- C9: the limiting ratio never amplifies. -/
theorem rho_bounds (a b c d e : ℚ)
    (h : eps * scale5 a b c d e < |d2qf a b c d e|) :
    0 ≤ rho a b c d e ∧ rho a b c d e ≤ 1 ∧
    |rho a b c d e * dqf_minus a b c d| ≤ |dqf_minus a b c d| ∧
    |rho a b c d e * dqf_plus b c d e| ≤ |dqf_plus b c d e| ∧
    0 ≤ rho a b c d e * dqf_minus a b c d * dqf_minus a b c d ∧
    0 ≤ rho a b c d e * dqf_plus b c d e * dqf_plus b c d e := by
  have hD : d2qf a b c d e ≠ 0 := by
    intro h0
    rw [h0, abs_zero] at h
    exact absurd h (not_lt.mpr (mul_nonneg (by norm_num [eps]) (scale5_nonneg a b c d e)))
  have hrho : rho a b c d e =
      lim4 (d2qc_im1 a b c) (d2qc b c d) (d2qc_ip1 c d e) (d2qf a b c d e) /
        d2qf a b c d e := by
    unfold rho qe4
    rw [if_pos h]
  obtain ⟨h1, h2⟩ :=
    lim4_div_bounds (d2qc_im1 a b c) (d2qc b c d) (d2qc_ip1 c d e) (d2qf a b c d e) hD
  rw [← hrho] at h1 h2
  refine ⟨h1, h2, ?_, ?_, ?_, ?_⟩
  · rw [abs_mul, abs_of_nonneg h1]
    calc rho a b c d e * |dqf_minus a b c d| ≤ 1 * |dqf_minus a b c d| :=
        mul_le_mul_of_nonneg_right h2 (abs_nonneg _)
    _ = |dqf_minus a b c d| := one_mul _
  · rw [abs_mul, abs_of_nonneg h1]
    calc rho a b c d e * |dqf_plus b c d e| ≤ 1 * |dqf_plus b c d e| :=
        mul_le_mul_of_nonneg_right h2 (abs_nonneg _)
    _ = |dqf_plus b c d e| := one_mul _
  · rw [mul_assoc]
    exact mul_nonneg h1 (mul_self_nonneg _)
  · rw [mul_assoc]
    exact mul_nonneg h1 (mul_self_nonneg _)

/-- C10: overshoot clips are mutually exclusive in the no-extremum branch. -/
theorem clips_exclusive (a b c d e : ℚ)
    (h1 : 0 < dqf_minus a b c d * dqf_plus b c d e)
    (h2 : 0 < (d - c) * (c - b)) :
    ¬(|dqf_minus a b c d| ≥ 2 * |dqf_plus b c d e| ∧
      |dqf_plus b c d e| ≥ 2 * |dqf_minus a b c d|) ∧
    ((PPM a b c d e).1 = dphip1Cor b c d e ∨ (PPM a b c d e).2 = dphCor a b c d) := by
  have hM : dqf_minus a b c d ≠ 0 := by
    intro h0; rw [h0, zero_mul] at h1; exact lt_irrefl 0 h1
  have hP : dqf_plus b c d e ≠ 0 := by
    intro h0; rw [h0, mul_zero] at h1; exact lt_irrefl 0 h1
  have hMpos : 0 < |dqf_minus a b c d| := abs_pos.mpr hM
  have hPpos : 0 < |dqf_plus b c d e| := abs_pos.mpr hP
  constructor
  · rintro ⟨ha, hb⟩; linarith
  · unfold PPM
    rw [if_neg (by push_neg; exact ⟨h1, h2⟩)]
    rcases le_or_lt (2 * |dqf_minus a b c d|) |dqf_plus b c d e| with hc | hc
    · right
      rw [if_neg (show ¬(|dqf_minus a b c d| ≥ 2 * |dqf_plus b c d e|) by
        intro hx; linarith)]
    · left
      rw [if_neg (not_le.mpr hc)]

lemma between_of_prod_nonneg (u v p : ℚ) (h : 0 ≤ (p - u) * (v - p)) :
    min u v ≤ p ∧ p ≤ max u v := by
  rcases mul_nonneg_iff.mp h with ⟨h1, h2⟩ | ⟨h1, h2⟩
  · exact ⟨le_trans (min_le_left _ _) (by linarith), le_trans (by linarith : p ≤ v) (le_max_right _ _)⟩
  · exact ⟨le_trans (min_le_right _ _) (by linarith), le_trans (by linarith : p ≤ u) (le_max_left _ _)⟩

lemma dphCor_of_untrig (a b c d : ℚ) (h : ¬faceLoTrig a b c d) :
    dphCor a b c d = dphRaw a b c d := by
  unfold faceLoTrig at h
  unfold dphCor faceCorrect
  exact if_neg h

lemma dphip1Cor_of_untrig (b c d e : ℚ) (h : ¬faceHiTrig b c d e) :
    dphip1Cor b c d e = dphip1Raw b c d e := by
  unfold faceHiTrig at h
  unfold dphip1Cor faceCorrect
  exact if_neg h

lemma dphCor_mem (a b c d : ℚ) (h : ¬faceLoTrig a b c d) :
    min b c ≤ dphCor a b c d ∧ dphCor a b c d ≤ max b c := by
  rw [dphCor_of_untrig a b c d h]
  apply between_of_prod_nonneg
  unfold faceLoTrig at h
  exact not_lt.mp h

lemma dphip1Cor_mem (b c d e : ℚ) (h : ¬faceHiTrig b c d e) :
    min c d ≤ dphip1Cor b c d e ∧ dphip1Cor b c d e ≤ max c d := by
  rw [dphip1Cor_of_untrig b c d e h]
  apply between_of_prod_nonneg
  unfold faceHiTrig at h
  exact not_lt.mp h

/-- C3 (amended): bounded output. -/
theorem PPM_bounded (a b c d e : ℚ)
    (hlo : ¬faceLoTrig a b c d) (hhi : ¬faceHiTrig b c d e)
    (hre : ¬rescaleTrig a b c d e) :
    min b (min c d) ≤ (PPM a b c d e).1 ∧ (PPM a b c d e).1 ≤ max b (max c d) ∧
    min b (min c d) ≤ (PPM a b c d e).2 ∧ (PPM a b c d e).2 ≤ max b (max c d) := by
  obtain ⟨hX1, hX2⟩ := dphCor_mem a b c d hlo
  obtain ⟨hY1, hY2⟩ := dphip1Cor_mem b c d e hhi
  have hmbc : min b (min c d) ≤ min b c :=
    le_min (min_le_left _ _) (le_trans (min_le_right _ _) (min_le_left _ _))
  have hmcd : min b (min c d) ≤ min c d := min_le_right _ _
  have hMbc : max b c ≤ max b (max c d) :=
    max_le (le_max_left _ _) (le_trans (le_max_left _ _) (le_max_right _ _))
  have hMcd : max c d ≤ max b (max c d) := le_max_right _ _
  have hminc : min b (min c d) ≤ c := le_trans hmcd (min_le_left _ _)
  have hmaxc : c ≤ max b (max c d) := le_trans (le_max_left _ _) hMcd
  have hXeq : dphCor a b c d = c - dqf_minus a b c d := by unfold dqf_minus; ring
  have hYeq : dphip1Cor b c d e = c + dqf_plus b c d e := by unfold dqf_plus; ring
  unfold PPM
  by_cases hcond : dqf_minus a b c d * dqf_plus b c d e ≤ 0 ∨ (d - c) * (c - b) ≤ 0
  · have hnr : ¬(rho a b c d e ≤ 1 - eps) := fun hr => hre ⟨hcond, hr⟩
    rw [if_pos hcond, if_neg hnr]
    exact ⟨le_trans hmcd hY1, le_trans hY2 hMcd, le_trans hmbc hX1, le_trans hX2 hMbc⟩
  · rw [if_neg hcond]
    push_neg at hcond
    obtain ⟨hMP, hdc⟩ := hcond
    rcases mul_pos_iff.mp hMP with ⟨hMpos, hPpos⟩ | ⟨hMneg, hPneg⟩
    · rw [abs_of_pos hMpos, abs_of_pos hPpos]
      refine ⟨?_, ?_, ?_, ?_⟩ <;> split_ifs <;>
        simp only [Prod.fst, Prod.snd] <;> linarith
    · rw [abs_of_neg hMneg, abs_of_neg hPneg]
      refine ⟨?_, ?_, ?_, ?_⟩ <;> split_ifs <;>
        simp only [Prod.fst, Prod.snd] <;> linarith

/-- C3 counterexample: rescale does not trigger, yet the left state exceeds
max(q_im1, q_i, q_ip1). -/
theorem PPM_bounded_ce :
    ¬rescaleTrig (-2) 0 1 1 (-2) ∧
    max 0 (max 1 1) < (PPM (-2) 0 1 1 (-2)).1 := by
  constructor
  · norm_num [rescaleTrig, rho, qe4, lim4, d2qf, dphCor, dphip1Cor, faceCorrect,
      dphRaw, dphip1Raw, dd_im1, dd, dd_ip1, d2qc_im1, d2qc, d2qc_ip1, lim3, SIGN,
      C2, eps, scale5, dqf_minus, dqf_plus, abs, min_def, max_def]
  · norm_num [PPM, rho, qe4, lim4, d2qf, dphCor, dphip1Cor, faceCorrect,
      dphRaw, dphip1Raw, dd_im1, dd, dd_ip1, d2qc_im1, d2qc, d2qc_ip1, lim3, SIGN,
      C2, eps, scale5, dqf_minus, dqf_plus, abs, min_def, max_def]

lemma foldl_pair {α β ι : Type} (s' : α × β → ι → α × β) (f : α → ι → α)
    (g : β → ι → β) (h : ∀ p i, s' p i = (f p.1 i, g p.2 i)) (L : List ι)
    (s : α) (t : β) : L.foldl s' (s, t) = (L.foldl f s, L.foldl g t) := by
  induction L generalizing s t with
  | nil => rfl
  | cons x xs ih =>
    rw [List.foldl_cons, List.foldl_cons, List.foldl_cons, h]
    exact ih _ _

lemma foldl_upd_other (n : ℕ) (w : ℤ → ℤ) (v : ℤ → ℚ) (L : List ℤ) :
    ∀ (b : ℕ → ℤ → ℚ) (m : ℕ) (p : ℤ), (∀ i ∈ L, ¬(m = n ∧ p = w i)) →
      (L.foldl (fun f i => upd f n (w i) (v i)) b) m p = b m p := by
  induction L with
  | nil => intro b m p h; rfl
  | cons x xs ih =>
    intro b m p h
    rw [List.foldl_cons, ih _ _ _ (fun i hi => h i (List.mem_cons_of_mem _ hi))]
    unfold upd
    rw [if_neg (h x (List.mem_cons_self _ _))]

lemma foldl_upd_get (n : ℕ) (w : ℤ → ℤ) (v : ℤ → ℚ) (L : List ℤ) :
    ∀ (b : ℕ → ℤ → ℚ) (i0 : ℤ), i0 ∈ L → (∀ i ∈ L, w i = w i0 → i = i0) →
      L.Nodup → (L.foldl (fun f i => upd f n (w i) (v i)) b) n (w i0) = v i0 := by
  induction L with
  | nil => intro b i0 hmem; cases hmem
  | cons x xs ih =>
    intro b i0 hmem hinj hnd
    rw [List.foldl_cons]
    rcases List.mem_cons.mp hmem with rfl | hmem'
    · rw [foldl_upd_other n w v xs _ n (w i0) ?_]
      · unfold upd
        rw [if_pos ⟨rfl, rfl⟩]
      · rintro i hi ⟨-, hp⟩
        have hii := hinj i (List.mem_cons_of_mem _ hi) hp.symm
        subst hii
        exact (List.nodup_cons.mp hnd).1 hi
    · exact ih _ i0 hmem' (fun i hi => hinj i (List.mem_cons_of_mem _ hi))
        (List.nodup_cons.mp hnd).2

lemma idxList_nodup (lo hi : ℤ) : (idxList lo hi).Nodup := by
  unfold idxList
  refine List.Nodup.map ?_ (List.nodup_range _)
  intro x y hxy
  have h2 : lo + (x : ℤ) = lo + (y : ℤ) := hxy
  omega

lemma mem_idxList (lo hi i : ℤ) : i ∈ idxList lo hi ↔ lo ≤ i ∧ i ≤ hi := by
  unfold idxList
  simp only [List.mem_map, List.mem_range]
  constructor
  · rintro ⟨t, ht, rfl⟩
    constructor <;> omega
  · rintro ⟨h1, h2⟩
    exact ⟨(i - lo).toNat, by omega, by omega⟩

lemma foldl_nest_get (nvar : ℕ) (w : ℤ → ℤ) (v : ℕ → ℤ → ℚ) (il iu : ℤ) (i0 : ℤ)
    (hmem : i0 ∈ idxList il iu) (hinj : ∀ i ∈ idxList il iu, w i = w i0 → i = i0) :
    ∀ (b : ℕ → ℤ → ℚ) (n0 : ℕ), n0 < nvar →
      ((List.range nvar).foldl
          (fun f n => (idxList il iu).foldl (fun f2 i => upd f2 n (w i) (v n i)) f) b)
        n0 (w i0) = v n0 i0 := by
  induction nvar with
  | zero => intro b n0 hn; omega
  | succ N ih =>
    intro b n0 hn
    rw [List.range_succ, List.foldl_append, List.foldl_cons, List.foldl_nil]
    rcases Nat.lt_succ_iff_lt_or_eq.mp hn with hlt | rfl
    · rw [foldl_upd_other N w (v N) _ _ n0 (w i0) (by rintro i hi ⟨rfl, -⟩; omega)]
      exact ih _ n0 hlt
    · exact foldl_upd_get n0 w (v n0) _ _ i0 hmem hinj (idxList_nodup il iu)

lemma X1_ql_get (nvar : ℕ) (k j il iu : ℤ) (q : ℕ → ℤ → ℤ → ℤ → ℚ)
    (ql qr : ℕ → ℤ → ℚ) (n : ℕ) (hn : n < nvar) (i : ℤ)
    (hi : il ≤ i ∧ i ≤ iu) :
    (PiecewiseParabolicX1 nvar k j il iu q ql qr).1 n (i + 1) =
      (stencilX1 q n k j i).1 := by
  unfold PiecewiseParabolicX1
  rw [foldl_pair _
      (fun f n => (idxList il iu).foldl
        (fun f2 i => upd f2 n (i + 1) (stencilX1 q n k j i).1) f)
      (fun f n => (idxList il iu).foldl
        (fun f2 i => upd f2 n i (stencilX1 q n k j i).2) f)
      (fun p n => foldl_pair _ _ _ (fun p2 i => rfl) _ p.1 p.2) _ ql qr]
  exact foldl_nest_get nvar (fun i => i + 1) (fun n i => (stencilX1 q n k j i).1)
    il iu i ((mem_idxList il iu i).mpr hi)
    (fun i2 h2 he => by simpa using he) ql n hn

lemma X1_qr_get (nvar : ℕ) (k j il iu : ℤ) (q : ℕ → ℤ → ℤ → ℤ → ℚ)
    (ql qr : ℕ → ℤ → ℚ) (n : ℕ) (hn : n < nvar) (i : ℤ)
    (hi : il ≤ i ∧ i ≤ iu) :
    (PiecewiseParabolicX1 nvar k j il iu q ql qr).2 n i =
      (stencilX1 q n k j i).2 := by
  unfold PiecewiseParabolicX1
  rw [foldl_pair _
      (fun f n => (idxList il iu).foldl
        (fun f2 i => upd f2 n (i + 1) (stencilX1 q n k j i).1) f)
      (fun f n => (idxList il iu).foldl
        (fun f2 i => upd f2 n i (stencilX1 q n k j i).2) f)
      (fun p n => foldl_pair _ _ _ (fun p2 i => rfl) _ p.1 p.2) _ ql qr]
  exact foldl_nest_get nvar (fun i => i) (fun n i => (stencilX1 q n k j i).2)
    il iu i ((mem_idxList il iu i).mpr hi)
    (fun i2 h2 he => he) qr n hn


lemma X2_ql_get (nvar : ℕ) (k j il iu : ℤ) (q : ℕ → ℤ → ℤ → ℤ → ℚ)
    (ql qr : ℕ → ℤ → ℚ) (n : ℕ) (hn : n < nvar) (i : ℤ)
    (hi : il ≤ i ∧ i ≤ iu) :
    (PiecewiseParabolicX2 nvar k j il iu q ql qr).1 n i =
      (stencilX2 q n k j i).1 := by
  unfold PiecewiseParabolicX2
  rw [foldl_pair _
      (fun f n => (idxList il iu).foldl
        (fun f2 i => upd f2 n i (stencilX2 q n k j i).1) f)
      (fun f n => (idxList il iu).foldl
        (fun f2 i => upd f2 n i (stencilX2 q n k j i).2) f)
      (fun p n => foldl_pair _ _ _ (fun p2 i => rfl) _ p.1 p.2) _ ql qr]
  exact foldl_nest_get nvar (fun i => i) (fun n i => (stencilX2 q n k j i).1)
    il iu i ((mem_idxList il iu i).mpr hi) (fun i2 h2 he => he) ql n hn

lemma X2_qr_get (nvar : ℕ) (k j il iu : ℤ) (q : ℕ → ℤ → ℤ → ℤ → ℚ)
    (ql qr : ℕ → ℤ → ℚ) (n : ℕ) (hn : n < nvar) (i : ℤ)
    (hi : il ≤ i ∧ i ≤ iu) :
    (PiecewiseParabolicX2 nvar k j il iu q ql qr).2 n i =
      (stencilX2 q n k j i).2 := by
  unfold PiecewiseParabolicX2
  rw [foldl_pair _
      (fun f n => (idxList il iu).foldl
        (fun f2 i => upd f2 n i (stencilX2 q n k j i).1) f)
      (fun f n => (idxList il iu).foldl
        (fun f2 i => upd f2 n i (stencilX2 q n k j i).2) f)
      (fun p n => foldl_pair _ _ _ (fun p2 i => rfl) _ p.1 p.2) _ ql qr]
  exact foldl_nest_get nvar (fun i => i) (fun n i => (stencilX2 q n k j i).2)
    il iu i ((mem_idxList il iu i).mpr hi) (fun i2 h2 he => he) qr n hn

lemma X3_ql_get (nvar : ℕ) (k j il iu : ℤ) (q : ℕ → ℤ → ℤ → ℤ → ℚ)
    (ql qr : ℕ → ℤ → ℚ) (n : ℕ) (hn : n < nvar) (i : ℤ)
    (hi : il ≤ i ∧ i ≤ iu) :
    (PiecewiseParabolicX3 nvar k j il iu q ql qr).1 n i =
      (stencilX3 q n k j i).1 := by
  unfold PiecewiseParabolicX3
  rw [foldl_pair _
      (fun f n => (idxList il iu).foldl
        (fun f2 i => upd f2 n i (stencilX3 q n k j i).1) f)
      (fun f n => (idxList il iu).foldl
        (fun f2 i => upd f2 n i (stencilX3 q n k j i).2) f)
      (fun p n => foldl_pair _ _ _ (fun p2 i => rfl) _ p.1 p.2) _ ql qr]
  exact foldl_nest_get nvar (fun i => i) (fun n i => (stencilX3 q n k j i).1)
    il iu i ((mem_idxList il iu i).mpr hi) (fun i2 h2 he => he) ql n hn

lemma X3_qr_get (nvar : ℕ) (k j il iu : ℤ) (q : ℕ → ℤ → ℤ → ℤ → ℚ)
    (ql qr : ℕ → ℤ → ℚ) (n : ℕ) (hn : n < nvar) (i : ℤ)
    (hi : il ≤ i ∧ i ≤ iu) :
    (PiecewiseParabolicX3 nvar k j il iu q ql qr).2 n i =
      (stencilX3 q n k j i).2 := by
  unfold PiecewiseParabolicX3
  rw [foldl_pair _
      (fun f n => (idxList il iu).foldl
        (fun f2 i => upd f2 n i (stencilX3 q n k j i).1) f)
      (fun f n => (idxList il iu).foldl
        (fun f2 i => upd f2 n i (stencilX3 q n k j i).2) f)
      (fun p n => foldl_pair _ _ _ (fun p2 i => rfl) _ p.1 p.2) _ ql qr]
  exact foldl_nest_get nvar (fun i => i) (fun n i => (stencilX3 q n k j i).2)
    il iu i ((mem_idxList il iu i).mpr hi) (fun i2 h2 he => he) qr n hn

/-- C4 (amended): driver indexing. -/
theorem drivers_store (nvar : ℕ) (k j il iu : ℤ) (q : ℕ → ℤ → ℤ → ℤ → ℚ)
    (ql1 qr1 ql2 qr2 ql3 qr3 : ℕ → ℤ → ℚ) (n : ℕ) (i : ℤ)
    (hn : n < nvar) (hi : il ≤ i ∧ i ≤ iu) :
    (PiecewiseParabolicX1 nvar k j il iu q ql1 qr1).1 n (i + 1) =
        (stencilX1 q n k j i).1 ∧
    (PiecewiseParabolicX1 nvar k j il iu q ql1 qr1).2 n i =
        (stencilX1 q n k j i).2 ∧
    (PiecewiseParabolicX2 nvar k j il iu q ql2 qr2).1 n i =
        (stencilX2 q n k j i).1 ∧
    (PiecewiseParabolicX2 nvar k j il iu q ql2 qr2).2 n i =
        (stencilX2 q n k j i).2 ∧
    (PiecewiseParabolicX3 nvar k j il iu q ql3 qr3).1 n i =
        (stencilX3 q n k j i).1 ∧
    (PiecewiseParabolicX3 nvar k j il iu q ql3 qr3).2 n i =
        (stencilX3 q n k j i).2 :=
  ⟨X1_ql_get nvar k j il iu q ql1 qr1 n hn i hi,
   X1_qr_get nvar k j il iu q ql1 qr1 n hn i hi,
   X2_ql_get nvar k j il iu q ql2 qr2 n hn i hi,
   X2_qr_get nvar k j il iu q ql2 qr2 n hn i hi,
   X3_ql_get nvar k j il iu q ql3 qr3 n hn i hi,
   X3_qr_get nvar k j il iu q ql3 qr3 n hn i hi⟩

/-- C4 counterexample: the x2-direction driver stores the left state at
buffer index `i`, not `i + 1`. -/
theorem drivers_store_ce :
    (PiecewiseParabolicX2 1 0 0 0 0 jfield zbuf zbuf).1 0 (0 + 1) ≠
        (stencilX2 jfield 0 0 0 0).1 ∧
    (PiecewiseParabolicX2 1 0 0 0 0 jfield zbuf zbuf).1 0 0 =
        (stencilX2 jfield 0 0 0 0).1 := by
  have hb : (PiecewiseParabolicX2 1 0 0 0 0 jfield zbuf zbuf).1 =
      upd zbuf 0 0 (stencilX2 jfield 0 0 0 0).1 := by
    unfold PiecewiseParabolicX2 idxList
    norm_num [List.range_succ]
  have hs : (stencilX2 jfield 0 0 0 0).1 = 1 / 2 := by
    unfold stencilX2 jfield
    norm_num [PPM, rho, qe4, lim4, d2qf, dphCor, dphip1Cor, faceCorrect,
      dphRaw, dphip1Raw, dd_im1, dd, dd_ip1, d2qc_im1, d2qc, d2qc_ip1, lim3, SIGN,
      C2, eps, scale5, dqf_minus, dqf_plus, abs, min_def, max_def]
  rw [hb, hs]
  unfold upd zbuf
  norm_num

/-- C5: axis invariance. -/
theorem axis_invariance (f : ℤ → ℚ) (nvar : ℕ) (n : ℕ)
    (k j il iu p il2 iu2 t : ℤ) (ql1 qr1 ql2 qr2 ql3 qr3 : ℕ → ℤ → ℚ)
    (hn : n < nvar) (hp : il ≤ p ∧ p ≤ iu) (ht : il2 ≤ t ∧ t ≤ iu2) :
    ((PiecewiseParabolicX1 nvar k j il iu (fun _ _ _ i => f i) ql1 qr1).1 n (p + 1) =
        (PiecewiseParabolicX2 nvar k p il2 iu2 (fun _ _ j2 _ => f j2) ql2 qr2).1 n t ∧
      (PiecewiseParabolicX1 nvar k j il iu (fun _ _ _ i => f i) ql1 qr1).1 n (p + 1) =
        (PiecewiseParabolicX3 nvar p j il2 iu2 (fun _ k2 _ _ => f k2) ql3 qr3).1 n t) ∧
    ((PiecewiseParabolicX1 nvar k j il iu (fun _ _ _ i => f i) ql1 qr1).2 n p =
        (PiecewiseParabolicX2 nvar k p il2 iu2 (fun _ _ j2 _ => f j2) ql2 qr2).2 n t ∧
      (PiecewiseParabolicX1 nvar k j il iu (fun _ _ _ i => f i) ql1 qr1).2 n p =
        (PiecewiseParabolicX3 nvar p j il2 iu2 (fun _ k2 _ _ => f k2) ql3 qr3).2 n t) := by
  rw [X1_ql_get _ _ _ _ _ _ _ _ _ hn _ hp, X1_qr_get _ _ _ _ _ _ _ _ _ hn _ hp,
    X2_ql_get _ _ _ _ _ _ _ _ _ hn _ ht, X2_qr_get _ _ _ _ _ _ _ _ _ hn _ ht,
    X3_ql_get _ _ _ _ _ _ _ _ _ hn _ ht, X3_qr_get _ _ _ _ _ _ _ _ _ hn _ ht]
  exact ⟨⟨rfl, rfl⟩, ⟨rfl, rfl⟩⟩

/-- Witness for C3 at the linear stencil (-2,-1,0,1,2). -/
theorem PPM_bounded_witness :
    (¬faceLoTrig (-2) (-1) 0 1 ∧ ¬faceHiTrig (-1) 0 1 2 ∧
      ¬rescaleTrig (-2) (-1) 0 1 2) ∧
    (min (-1) (min 0 1) ≤ (PPM (-2) (-1) 0 1 2).1 ∧
      (PPM (-2) (-1) 0 1 2).1 ≤ max (-1) (max 0 1) ∧
      min (-1) (min 0 1) ≤ (PPM (-2) (-1) 0 1 2).2 ∧
      (PPM (-2) (-1) 0 1 2).2 ≤ max (-1) (max 0 1)) := by
  have h1 : ¬faceLoTrig (-2) (-1) 0 1 := by
    norm_num [faceLoTrig, dphRaw, dd_im1, dd]
  have h2 : ¬faceHiTrig (-1) 0 1 2 := by
    norm_num [faceHiTrig, dphip1Raw, dd, dd_ip1]
  have h3 : ¬rescaleTrig (-2) (-1) 0 1 2 := by
    norm_num [rescaleTrig, dqf_minus, dqf_plus, dphCor, dphip1Cor, faceCorrect,
      dphRaw, dphip1Raw, dd_im1, dd, dd_ip1, d2qc_im1, d2qc, d2qc_ip1, lim3, SIGN,
      C2, rho, d2qf, qe4, lim4, scale5, eps, abs, min_def, max_def]
  exact ⟨⟨h1, h2, h3⟩, PPM_bounded (-2) (-1) 0 1 2 h1 h2 h3⟩

/-- Witness for C6 at the constant stencil (1,1,1,1,1). -/
theorem PPM_roundoff_guard_witness :
    |d2qf 1 1 1 1 1| ≤ eps * scale5 1 1 1 1 1 ∧
    (rho 1 1 1 1 1 = 0 ∧
      |(PPM 1 1 1 1 1).1 - 1| ≤ 2 * max |dqf_minus 1 1 1 1| |dqf_plus 1 1 1 1| ∧
      |(PPM 1 1 1 1 1).2 - 1| ≤ 2 * max |dqf_minus 1 1 1 1| |dqf_plus 1 1 1 1|) := by
  have h : |d2qf 1 1 1 1 1| ≤ eps * scale5 1 1 1 1 1 := by
    norm_num [d2qf, dphCor, dphip1Cor, faceCorrect, dphRaw, dphip1Raw, dd_im1, dd,
      dd_ip1, d2qc_im1, d2qc, d2qc_ip1, lim3, SIGN, C2, eps, scale5, abs,
      min_def, max_def]
  exact ⟨h, PPM_roundoff_guard 1 1 1 1 1 h⟩

/-- Witness for C9 at the stencil (1,1,1,2,3). -/
theorem rho_bounds_witness :
    eps * scale5 1 1 1 2 3 < |d2qf 1 1 1 2 3| ∧
    (0 ≤ rho 1 1 1 2 3 ∧ rho 1 1 1 2 3 ≤ 1 ∧
      |rho 1 1 1 2 3 * dqf_minus 1 1 1 2| ≤ |dqf_minus 1 1 1 2| ∧
      |rho 1 1 1 2 3 * dqf_plus 1 1 2 3| ≤ |dqf_plus 1 1 2 3| ∧
      0 ≤ rho 1 1 1 2 3 * dqf_minus 1 1 1 2 * dqf_minus 1 1 1 2 ∧
      0 ≤ rho 1 1 1 2 3 * dqf_plus 1 1 2 3 * dqf_plus 1 1 2 3) := by
  have h : eps * scale5 1 1 1 2 3 < |d2qf 1 1 1 2 3| := by
    norm_num [d2qf, dphCor, dphip1Cor, faceCorrect, dphRaw, dphip1Raw, dd_im1, dd,
      dd_ip1, d2qc_im1, d2qc, d2qc_ip1, lim3, SIGN, C2, eps, scale5, abs,
      min_def, max_def]
  exact ⟨h, rho_bounds 1 1 1 2 3 h⟩

/-- Witness for C10 at the linear stencil (-2,-1,0,1,2). -/
theorem clips_exclusive_witness :
    (0 < dqf_minus (-2) (-1) 0 1 * dqf_plus (-1) 0 1 2 ∧
      (0 : ℚ) < (1 - 0) * (0 - (-1))) ∧
    (¬(|dqf_minus (-2) (-1) 0 1| ≥ 2 * |dqf_plus (-1) 0 1 2| ∧
        |dqf_plus (-1) 0 1 2| ≥ 2 * |dqf_minus (-2) (-1) 0 1|) ∧
      ((PPM (-2) (-1) 0 1 2).1 = dphip1Cor (-1) 0 1 2 ∨
        (PPM (-2) (-1) 0 1 2).2 = dphCor (-2) (-1) 0 1)) := by
  have h1 : 0 < dqf_minus (-2) (-1) 0 1 * dqf_plus (-1) 0 1 2 := by
    norm_num [dqf_minus, dqf_plus, dphCor, dphip1Cor, faceCorrect, dphRaw,
      dphip1Raw, dd_im1, dd, dd_ip1, d2qc_im1, d2qc, d2qc_ip1, lim3, SIGN, C2]
  have h2 : (0 : ℚ) < (1 - 0) * (0 - (-1)) := by norm_num
  exact ⟨⟨h1, h2⟩, clips_exclusive (-2) (-1) 0 1 2 h1 h2⟩

/-- Witness for C4 on a concrete one-variable, one-cell sweep. -/
theorem drivers_store_witness :
    ((0 : ℕ) < 1 ∧ ((0 : ℤ) ≤ 0 ∧ (0 : ℤ) ≤ 0)) ∧
    ((PiecewiseParabolicX1 1 0 0 0 0 cfield zbuf zbuf).1 0 (0 + 1) =
        (stencilX1 cfield 0 0 0 0).1 ∧
      (PiecewiseParabolicX1 1 0 0 0 0 cfield zbuf zbuf).2 0 0 =
        (stencilX1 cfield 0 0 0 0).2 ∧
      (PiecewiseParabolicX2 1 0 0 0 0 cfield zbuf zbuf).1 0 0 =
        (stencilX2 cfield 0 0 0 0).1 ∧
      (PiecewiseParabolicX2 1 0 0 0 0 cfield zbuf zbuf).2 0 0 =
        (stencilX2 cfield 0 0 0 0).2 ∧
      (PiecewiseParabolicX3 1 0 0 0 0 cfield zbuf zbuf).1 0 0 =
        (stencilX3 cfield 0 0 0 0).1 ∧
      (PiecewiseParabolicX3 1 0 0 0 0 cfield zbuf zbuf).2 0 0 =
        (stencilX3 cfield 0 0 0 0).2) :=
  ⟨⟨by norm_num, ⟨le_refl 0, le_refl 0⟩⟩,
    drivers_store 1 0 0 0 0 cfield zbuf zbuf zbuf zbuf zbuf zbuf 0 0
      (by norm_num) ⟨le_refl 0, le_refl 0⟩⟩

/-- Witness for C5 on a concrete one-variable, one-cell sweep of the zero
field. -/
theorem axis_invariance_witness :
    ((0 : ℕ) < 1 ∧ ((0 : ℤ) ≤ 0 ∧ (0 : ℤ) ≤ 0) ∧ ((0 : ℤ) ≤ 0 ∧ (0 : ℤ) ≤ 0)) ∧
    (((PiecewiseParabolicX1 1 0 0 0 0 cfield zbuf zbuf).1 0 (0 + 1) =
        (PiecewiseParabolicX2 1 0 0 0 0 cfield zbuf zbuf).1 0 0 ∧
      (PiecewiseParabolicX1 1 0 0 0 0 cfield zbuf zbuf).1 0 (0 + 1) =
        (PiecewiseParabolicX3 1 0 0 0 0 cfield zbuf zbuf).1 0 0) ∧
     ((PiecewiseParabolicX1 1 0 0 0 0 cfield zbuf zbuf).2 0 0 =
        (PiecewiseParabolicX2 1 0 0 0 0 cfield zbuf zbuf).2 0 0 ∧
      (PiecewiseParabolicX1 1 0 0 0 0 cfield zbuf zbuf).2 0 0 =
        (PiecewiseParabolicX3 1 0 0 0 0 cfield zbuf zbuf).2 0 0)) :=
  ⟨⟨by norm_num, ⟨le_refl 0, le_refl 0⟩, ⟨le_refl 0, le_refl 0⟩⟩,
    axis_invariance (fun _ => (0 : ℚ)) 1 0 0 0 0 0 0 0 0 0
      zbuf zbuf zbuf zbuf zbuf zbuf (by norm_num)
      ⟨le_refl 0, le_refl 0⟩ ⟨le_refl 0, le_refl 0⟩⟩

end PPMRecon
